import Mathlib

/-!
# Poedit sidebar: content selection of the three sidebar blocks

A shallow embedding of `src/sidebar.cpp` (classes `SidebarBlock`,
`OldMsgidSidebarBlock`, `AutoCommentSidebarBlock`, `CommentSidebarBlock` and
`Sidebar`) together with the wxWidgets string primitives these classes call.

Painting, sizers and layout are left out: of a block only the two things the
selection logic writes are kept, namely whether its items are shown and the
label last handed to `SetAndWrapLabel`.
-/

namespace Poedit

/-! ## wxWidgets string primitives

wxWidgets is an external library: `wxJoin`, `wxString::StartsWith`,
`wxString::Remove` and `wxString::Trim` are written after the library's own
implementation, argument for argument. -/

/-- A `wxString` is a finite sequence of characters. -/
abbrev wxString := List Char

/-- The no-escape loop of `wxJoin`: `if (i) str += sep; str += arr[i];` for
`i = 0 .. count-1`, with `i` the index of the head of the remaining array. -/
def wxJoinPlain (sep : Char) : Nat → List wxString → wxString → wxString
  | _, [], str => str
  | i, a :: rest, str =>
    wxJoinPlain sep (i + 1) rest ((if i ≠ 0 then str ++ [sep] else str) ++ a)

/-- The inner loop of the escaping branch of `wxJoin`: every character of the
element equal to the separator is preceded by the escape character. -/
def wxJoinEscapeElem (sep escape : Char) : wxString → wxString → wxString
  | [], str => str
  | ch :: rest, str =>
    wxJoinEscapeElem sep escape rest ((if ch = sep then str ++ [escape] else str) ++ [ch])

/-- The escaping loop of `wxJoin`. -/
def wxJoinEscaped (sep escape : Char) : Nat → List wxString → wxString → wxString
  | _, [], str => str
  | n, a :: rest, str =>
    wxJoinEscaped sep escape (n + 1) rest
      (wxJoinEscapeElem sep escape a (if n ≠ 0 then str ++ [sep] else str))

/-- The function `wxJoin(arr, sep, escape)` of wxWidgets: the empty array gives
the empty string; with `escape == '\0'` escaping is disabled. -/
def wxJoin (arr : List wxString) (sep escape : Char) : wxString :=
  if arr.length = 0 then []
  else if escape = '\x00' then wxJoinPlain sep 0 arr []
  else wxJoinEscaped sep escape 0 arr []

/-- The method `wxString::StartsWith(p)`: a case-sensitive comparison of the
first `p.length()` characters with `p`. -/
def StartsWith (s p : wxString) : Bool := p.isPrefixOf s

/-- The method `wxString::Remove(pos, len)`, which is `erase(pos, len)`: the
characters at positions `pos .. pos+len-1` (those that exist) are removed. -/
def Remove (s : wxString) (pos len : Nat) : wxString := s.take pos ++ s.drop (pos + len)

/-- The helper `wxSafeIsspace(ch)`: `(ch < 127) && isspace(ch)`, the white space
of the C locale being space, `\t`, `\n`, `\v`, `\f` and `\r`. -/
def wxSafeIsspace (ch : Char) : Bool :=
  decide (ch.toNat < 127) && (ch == ' ' || (decide (9 ≤ ch.toNat) && decide (ch.toNat ≤ 13)))

/-- The method `wxString::Trim(bFromRight)`: white space is removed from ONE end
of the string, the right end when `bFromRight` is true (the default of the
argument), the left end otherwise. -/
def Trim (s : wxString) (bFromRight : Bool) : wxString :=
  if bFromRight then
    match s.getLast? with
    | some ch => if wxSafeIsspace ch then s.rdropWhile wxSafeIsspace else s
    | none => s
  else
    match s.head? with
    | some ch => if wxSafeIsspace ch then s.dropWhile wxSafeIsspace else s
    | none => s

/-! ## The catalog entry -/

/-- A translation entry as the sidebar sees it. `catalog.h` is not among the
sources, so an entry is represented by what the six const accessors called in
`sidebar.cpp` return for it; nothing is assumed about how they relate. -/
structure CatalogItem where
  HasOldMsgid : Bool
  GetOldMsgid : List wxString
  HasAutoComments : Bool
  GetAutoComments : List wxString
  HasComment : Bool
  GetComment : wxString
deriving DecidableEq

/-! ## Sidebar blocks -/

/-- The state of a block that the selection logic writes: `shown` is the
argument of the last `m_sizer->ShowItems(show)`, `label` the argument of the
last `SetAndWrapLabel` on the block's text control. -/
structure SidebarBlock where
  shown : Bool
  label : wxString
deriving DecidableEq

/-- The two pure virtual methods of `SidebarBlock`. -/
structure SidebarBlockMethods where
  ShouldShowForItem : CatalogItem → Bool
  Update : CatalogItem → SidebarBlock → SidebarBlock

/-- The method `SidebarBlock::Show`. -/
def SidebarBlock.Show (b : SidebarBlock) (show_ : Bool) : SidebarBlock :=
  { b with shown := show_ }

/-- The method `SidebarBlock::SetItem`; a null `item` is `none`. -/
def SidebarBlock.SetItem (m : SidebarBlockMethods) (item : Option CatalogItem)
    (b : SidebarBlock) : SidebarBlock :=
  match item with
  | none => b.Show false
  | some item =>
    let use := m.ShouldShowForItem item
    let b := if use then m.Update item b else b
    b.Show use

/-- The method `OldMsgidSidebarBlock::ShouldShowForItem`. -/
def OldMsgidSidebarBlock.ShouldShowForItem (item : CatalogItem) : Bool :=
  item.HasOldMsgid

/-- The method `OldMsgidSidebarBlock::Update`. -/
def OldMsgidSidebarBlock.Update (item : CatalogItem) (b : SidebarBlock) : SidebarBlock :=
  let txt := wxJoin item.GetOldMsgid ' ' '\x00'
  { b with label := txt }

/-- The method `AutoCommentSidebarBlock::ShouldShowForItem`. -/
def AutoCommentSidebarBlock.ShouldShowForItem (item : CatalogItem) : Bool :=
  item.HasAutoComments

/-- The method `AutoCommentSidebarBlock::Update`. -/
def AutoCommentSidebarBlock.Update (item : CatalogItem) (b : SidebarBlock) : SidebarBlock :=
  let comment := wxJoin item.GetAutoComments ' ' '\x00'
  let comment :=
    if StartsWith comment "TRANSLATORS:".toList || StartsWith comment "translators:".toList then
      let comment := Remove comment 0 12
      if !comment.isEmpty && comment.head? == some ' ' then Remove comment 0 1 else comment
    else comment
  { b with label := comment }

/-- The method `CommentSidebarBlock::ShouldShowForItem`. -/
def CommentSidebarBlock.ShouldShowForItem (item : CatalogItem) : Bool :=
  item.HasComment

/-- The method `CommentSidebarBlock::Update`. `CommentDialog::RemoveStartHash`
is defined in `commentdlg.cpp`, which is not among the sources, and is taken as
the parameter `RemoveStartHash`. `text.Trim()` is `Trim(true)`. -/
def CommentSidebarBlock.Update (RemoveStartHash : wxString → wxString)
    (item : CatalogItem) (b : SidebarBlock) : SidebarBlock :=
  let text := RemoveStartHash item.GetComment
  let text := Trim text true
  { b with label := text }

/-- Modelled from the spec: `CommentDialog::RemoveStartHash` (`commentdlg.cpp`
is missing). The spec says that it strips a leading comment-marker character
sequence, and that for a text beginning with a hash marker followed by white
space the marker and exactly one following space are removed: the hash
character is the marker, and one white-space character after it goes too. -/
def CommentDialog.RemoveStartHash : wxString → wxString
  | '#' :: ch :: rest => if wxSafeIsspace ch then rest else ch :: rest
  | ['#'] => []
  | comment => comment

/-- The method table of `OldMsgidSidebarBlock`. -/
def OldMsgidSidebarBlock.methods : SidebarBlockMethods :=
  ⟨OldMsgidSidebarBlock.ShouldShowForItem, OldMsgidSidebarBlock.Update⟩

/-- The method table of `AutoCommentSidebarBlock`. -/
def AutoCommentSidebarBlock.methods : SidebarBlockMethods :=
  ⟨AutoCommentSidebarBlock.ShouldShowForItem, AutoCommentSidebarBlock.Update⟩

/-- The method table of `CommentSidebarBlock`. -/
def CommentSidebarBlock.methods (RemoveStartHash : wxString → wxString) :
    SidebarBlockMethods :=
  ⟨CommentSidebarBlock.ShouldShowForItem, CommentSidebarBlock.Update RemoveStartHash⟩

/-! ## The sidebar -/

/-- The members of `Sidebar` that `SetSelectedItem` touches. -/
structure Sidebar where
  m_selectedItem : Option CatalogItem
  m_oldMsgid : SidebarBlock
  m_autoComments : SidebarBlock
  m_comment : SidebarBlock
deriving DecidableEq

/-- The method `Sidebar::RefreshContent` (the closing `Layout()` changes none of
the modelled members). -/
def Sidebar.RefreshContent (RemoveStartHash : wxString → wxString) (s : Sidebar) : Sidebar :=
  let s := { s with m_oldMsgid := s.m_oldMsgid.SetItem OldMsgidSidebarBlock.methods s.m_selectedItem }
  let s := { s with
    m_autoComments := s.m_autoComments.SetItem AutoCommentSidebarBlock.methods s.m_selectedItem }
  { s with
    m_comment := s.m_comment.SetItem (CommentSidebarBlock.methods RemoveStartHash) s.m_selectedItem }

/-- The method `Sidebar::SetSelectedItem`. -/
def Sidebar.SetSelectedItem (RemoveStartHash : wxString → wxString) (s : Sidebar)
    (item : Option CatalogItem) : Sidebar :=
  Sidebar.RefreshContent RemoveStartHash { s with m_selectedItem := item }

/-- The method `Sidebar::SetMultipleSelection`. -/
def Sidebar.SetMultipleSelection (RemoveStartHash : wxString → wxString) (s : Sidebar) :
    Sidebar :=
  s.SetSelectedItem RemoveStartHash none

/-- The constructor `Sidebar::Sidebar`: every block is created with the empty
label and shown items, then `SetSelectedItem(nullptr)` is called. -/
def Sidebar.ctor (RemoveStartHash : wxString → wxString) : Sidebar :=
  Sidebar.SetSelectedItem RemoveStartHash ⟨none, ⟨true, []⟩, ⟨true, []⟩, ⟨true, []⟩⟩ none

/-! ## The Crowdin client -/

/-- The record `CrowdinClient::UserInfo` of `crowdin_client.h`. -/
structure CrowdinClient.UserInfo where
  name : String
  login : String
deriving DecidableEq

/-- Modelled from the spec: the state of `CrowdinClient`, whose implementation
(`crowdin_client.cpp`) is missing; only the declarations of `crowdin_client.h`
are at hand. The spec gives the client no mutable state beyond the cached auth
token. -/
structure CrowdinClient where
  token : Option String
deriving DecidableEq

/-- Modelled from the spec: `CrowdinClient::HandleOAuthCallback`, missing with
`crowdin_client.cpp`; the token that the matched callback URI carries (here the
argument itself) becomes the cached token. -/
def CrowdinClient.HandleOAuthCallback (c : CrowdinClient) (token : String) : CrowdinClient :=
  { c with token := some token }

/-- Modelled from the spec: `CrowdinClient::IsSignedIn`, missing with
`crowdin_client.cpp`; the user is signed in when a token is cached. -/
def CrowdinClient.IsSignedIn (c : CrowdinClient) : Bool :=
  c.token.isSome

/-- Modelled from the spec: `CrowdinClient::SignOut`, missing with
`crowdin_client.cpp`; sign-out forgets the cached token. -/
def CrowdinClient.SignOut (c : CrowdinClient) : CrowdinClient :=
  { c with token := none }

/-- Modelled from the spec: `CrowdinClient::GetUserInfo`, missing with
`crowdin_client.cpp`. `service` is the remote service, giving its answer to a
user-info request made with a token (`none` when the request fails). The result
is the client after the request and what the one callback of the declaration is
invoked with, `none` when it is not invoked. Per the spec a request after
sign-out fails, a `UserInfo` is constructed fresh from the response, and
nothing of it persists in the client. -/
def CrowdinClient.GetUserInfo (service : String → Option CrowdinClient.UserInfo)
    (c : CrowdinClient) : CrowdinClient × Option CrowdinClient.UserInfo :=
  match c.token with
  | none => (c, none)
  | some token => (c, service token)

/-! ## Helper lemmas -/

theorem wxJoinPlain_succ (sep : Char) (i : Nat) (arr : List wxString) (str : wxString) :
    wxJoinPlain sep (i + 1) arr str = str ++ (arr.map fun a => sep :: a).flatten := by
  induction arr generalizing i str with
  | nil => simp [wxJoinPlain]
  | cons a rest ih => simp [wxJoinPlain, ih]

theorem intercalate_cons_eq (sep : Char) (a : wxString) (rest : List wxString) :
    List.intercalate [sep] (a :: rest) = a ++ (rest.map fun x => sep :: x).flatten := by
  induction rest generalizing a with
  | nil => simp [List.intercalate]
  | cons b rest ih =>
    have h := ih b
    simp only [List.intercalate, List.intersperse] at h ⊢
    simp [h]

/-- With escaping disabled, `wxJoin` puts exactly one separator between
consecutive elements and none at either end. -/
theorem wxJoin_eq_intercalate (arr : List wxString) (sep : Char) :
    wxJoin arr sep '\x00' = List.intercalate [sep] arr := by
  cases arr with
  | nil => simp [wxJoin, List.intercalate]
  | cons a rest =>
    rw [intercalate_cons_eq]
    simp [wxJoin, wxJoinPlain, wxJoinPlain_succ]

theorem startsWith_iff_isPrefix (s p : wxString) : StartsWith s p = true ↔ p <+: s := by
  unfold StartsWith
  exact List.isPrefixOf_iff_prefix

theorem startsWith_append (p rest : wxString) : StartsWith (p ++ rest) p = true := by
  simp [StartsWith]

theorem startsWith_same_length (p m rest : wxString) (h : p.length = m.length) :
    StartsWith (m ++ rest) p = true ↔ p = m := by
  rw [startsWith_iff_isPrefix]
  constructor
  · intro hp
    have hm : m <+: m ++ rest := List.prefix_append m rest
    exact (List.prefix_of_prefix_length_le hp hm (le_of_eq h)).eq_of_length h
  · rintro rfl
    exact List.prefix_append p rest

theorem remove_zero_append (p rest : wxString) : Remove (p ++ rest) 0 p.length = rest := by
  simp [Remove]

theorem remove_zero_one (s : wxString) : Remove s 0 1 = s.tail := by
  cases s <;> simp [Remove]

/-- The label `AutoCommentSidebarBlock::Update` sets when the joined text is a
12-character marker accepted by one of the two `StartsWith` tests, followed by
`rest`. -/
theorem autoComment_label_of_marker (item : CatalogItem) (b : SidebarBlock)
    (m rest : wxString) (hm : m = "TRANSLATORS:".toList ∨ m = "translators:".toList)
    (hj : wxJoin item.GetAutoComments ' ' '\x00' = m ++ rest) :
    (AutoCommentSidebarBlock.Update item b).label =
      if rest.head? = some ' ' then rest.tail else rest := by
  have hlen : m.length = 12 := by
    rcases hm with rfl | rfl <;> rfl
  have hrem : Remove (m ++ rest) 0 12 = rest := by
    rw [← hlen]
    exact remove_zero_append m rest
  have hstart : (StartsWith (m ++ rest) "TRANSLATORS:".toList ||
      StartsWith (m ++ rest) "translators:".toList) = true := by
    rcases hm with rfl | rfl
    · rw [startsWith_append]
      rfl
    · rw [startsWith_append]
      exact Bool.or_true _
  simp only [AutoCommentSidebarBlock.Update, hj, hstart, hrem, if_true, remove_zero_one]
  cases rest with
  | nil => simp
  | cons c r => by_cases hc : c = ' ' <;> simp [hc]

/-- The label `AutoCommentSidebarBlock::Update` sets when both `StartsWith`
tests fail. -/
theorem autoComment_label_of_no_marker (item : CatalogItem) (b : SidebarBlock)
    (hU : StartsWith (wxJoin item.GetAutoComments ' ' '\x00') "TRANSLATORS:".toList = false)
    (hL : StartsWith (wxJoin item.GetAutoComments ' ' '\x00') "translators:".toList = false) :
    (AutoCommentSidebarBlock.Update item b).label = wxJoin item.GetAutoComments ' ' '\x00' := by
  simp only [AutoCommentSidebarBlock.Update, hU, hL]
  rfl

theorem rdropWhile_append_rtakeWhile (p : Char → Bool) (l : wxString) :
    l.rdropWhile p ++ l.rtakeWhile p = l := by
  simp only [List.rdropWhile, List.rtakeWhile, ← List.reverse_append,
    List.takeWhile_append_dropWhile, List.reverse_reverse]

/-- The default `Trim()` removes the longest run of white space at the right
end and nothing else. -/
theorem trim_right_eq_rdropWhile (s : wxString) :
    Trim s true = s.rdropWhile wxSafeIsspace := by
  simp only [Trim, if_true]
  rcases List.eq_nil_or_concat s with rfl | ⟨l, ch, rfl⟩
  · simp [List.rdropWhile]
  · simp only [List.concat_eq_append, List.getLast?_concat]
    by_cases hch : wxSafeIsspace ch = true
    · simp [hch]
    · rw [List.rdropWhile_concat_neg _ _ _ hch]
      simp [hch]

/-! ## Visibility of the blocks -/

/-- C1: after `Sidebar::SetSelectedItem(entry)` with a non-null entry, from any
sidebar state, the entry is the selected one and each of the three blocks is
shown if and only if its `ShouldShowForItem` predicate is true of the entry,
that predicate being `HasOldMsgid`, `HasAutoComments` and `HasComment`
respectively. -/
theorem setSelectedItem_shown_iff (RemoveStartHash : wxString → wxString) (s : Sidebar)
    (entry : CatalogItem) :
    (s.SetSelectedItem RemoveStartHash (some entry)).m_selectedItem = some entry ∧
    (((s.SetSelectedItem RemoveStartHash (some entry)).m_oldMsgid.shown = true ↔
        OldMsgidSidebarBlock.ShouldShowForItem entry = true) ∧
      (OldMsgidSidebarBlock.ShouldShowForItem entry = true ↔ entry.HasOldMsgid = true)) ∧
    (((s.SetSelectedItem RemoveStartHash (some entry)).m_autoComments.shown = true ↔
        AutoCommentSidebarBlock.ShouldShowForItem entry = true) ∧
      (AutoCommentSidebarBlock.ShouldShowForItem entry = true ↔
        entry.HasAutoComments = true)) ∧
    (((s.SetSelectedItem RemoveStartHash (some entry)).m_comment.shown = true ↔
        CommentSidebarBlock.ShouldShowForItem entry = true) ∧
      (CommentSidebarBlock.ShouldShowForItem entry = true ↔ entry.HasComment = true)) := by
  simp [Sidebar.SetSelectedItem, Sidebar.RefreshContent, SidebarBlock.SetItem,
    SidebarBlock.Show, OldMsgidSidebarBlock.methods, AutoCommentSidebarBlock.methods,
    CommentSidebarBlock.methods, OldMsgidSidebarBlock.ShouldShowForItem,
    AutoCommentSidebarBlock.ShouldShowForItem, CommentSidebarBlock.ShouldShowForItem]

/-- C2: from any sidebar state, `Sidebar::SetSelectedItem(nullptr)` and
`Sidebar::SetMultipleSelection()` both leave the selected entry unset and the
three blocks hidden, and the two resulting states are equal. -/
theorem unset_selection_hides_all (RemoveStartHash : wxString → wxString) (s : Sidebar) :
    ((s.SetSelectedItem RemoveStartHash none).m_selectedItem = none ∧
      (s.SetSelectedItem RemoveStartHash none).m_oldMsgid.shown = false ∧
      (s.SetSelectedItem RemoveStartHash none).m_autoComments.shown = false ∧
      (s.SetSelectedItem RemoveStartHash none).m_comment.shown = false) ∧
    ((s.SetMultipleSelection RemoveStartHash).m_selectedItem = none ∧
      (s.SetMultipleSelection RemoveStartHash).m_oldMsgid.shown = false ∧
      (s.SetMultipleSelection RemoveStartHash).m_autoComments.shown = false ∧
      (s.SetMultipleSelection RemoveStartHash).m_comment.shown = false) ∧
    s.SetMultipleSelection RemoveStartHash = s.SetSelectedItem RemoveStartHash none := by
  simp [Sidebar.SetMultipleSelection, Sidebar.SetSelectedItem, Sidebar.RefreshContent,
    SidebarBlock.SetItem, SidebarBlock.Show]

/-! ## The previous source text -/

/-- C6: `SetItem` on the OldMsgid block, from any block state: when the entry
has no prior source text the block is hidden; when it has, the block is shown
and its label is the prior source-text lines concatenated in order with exactly
one space between consecutive lines, nothing escaped and no separator at either
end. -/
theorem oldMsgid_setItem (item : CatalogItem) (b : SidebarBlock) :
    (item.HasOldMsgid = false →
      (b.SetItem OldMsgidSidebarBlock.methods (some item)).shown = false) ∧
    (item.HasOldMsgid = true →
      (b.SetItem OldMsgidSidebarBlock.methods (some item)).shown = true ∧
      (b.SetItem OldMsgidSidebarBlock.methods (some item)).label =
        List.intercalate [' '] item.GetOldMsgid) := by
  constructor
  · intro h
    simp [SidebarBlock.SetItem, SidebarBlock.Show, OldMsgidSidebarBlock.methods,
      OldMsgidSidebarBlock.ShouldShowForItem, h]
  · intro h
    simp [SidebarBlock.SetItem, SidebarBlock.Show, OldMsgidSidebarBlock.methods,
      OldMsgidSidebarBlock.ShouldShowForItem, OldMsgidSidebarBlock.Update, h,
      wxJoin_eq_intercalate]

/-- Witness for `oldMsgid_setItem`: an entry without prior source text, and an
entry whose prior source text has the lines `a b`, the empty line and `c`. -/
theorem oldMsgid_setItem_witness :
    (⟨true, "x".toList⟩ : SidebarBlock).SetItem OldMsgidSidebarBlock.methods
        (some ⟨false, [], false, [], false, []⟩) = ⟨false, "x".toList⟩ ∧
    (⟨false, "x".toList⟩ : SidebarBlock).SetItem OldMsgidSidebarBlock.methods
        (some ⟨true, ["a b".toList, [], "c".toList], false, [], false, []⟩) =
      ⟨true, "a b  c".toList⟩ ∧
    ((⟨true, "x".toList⟩ : SidebarBlock).SetItem OldMsgidSidebarBlock.methods
        (some ⟨false, [], false, [], false, []⟩)).shown = false ∧
    ((⟨false, "x".toList⟩ : SidebarBlock).SetItem OldMsgidSidebarBlock.methods
        (some ⟨true, ["a b".toList, [], "c".toList], false, [], false, []⟩)).shown = true ∧
    ((⟨false, "x".toList⟩ : SidebarBlock).SetItem OldMsgidSidebarBlock.methods
        (some ⟨true, ["a b".toList, [], "c".toList], false, [], false, []⟩)).label =
      List.intercalate [' '] ["a b".toList, [], "c".toList] :=
  ⟨by decide, by decide,
    (oldMsgid_setItem ⟨false, [], false, [], false, []⟩ ⟨true, "x".toList⟩).1 rfl,
    ((oldMsgid_setItem ⟨true, ["a b".toList, [], "c".toList], false, [], false, []⟩
      ⟨false, "x".toList⟩).2 rfl).1,
    ((oldMsgid_setItem ⟨true, ["a b".toList, [], "c".toList], false, [], false, []⟩
      ⟨false, "x".toList⟩).2 rfl).2⟩

/-! ## What `SetItem` leaves alone -/

/-- C9: `SidebarBlock::SetItem` on a block of any class, from any block state:
when the entry is unset, or the block's `ShouldShowForItem` is false of it, the
result is the old block with `shown` set to false, whatever `Update` the class
has (so `Update` is not called and the label is the one from before the call).
Consequently a hidden block can hold the text of an entry selected earlier: in a
freshly constructed sidebar, selecting an entry with prior source text `old`
and then clearing the selection leaves the OldMsgid block hidden with label
`old`. -/
theorem setItem_hidden_keeps_label (m : SidebarBlockMethods) (item : Option CatalogItem)
    (b : SidebarBlock)
    (h : item = none ∨ ∃ it, item = some it ∧ m.ShouldShowForItem it = false) :
    (∀ update : CatalogItem → SidebarBlock → SidebarBlock,
      b.SetItem ⟨m.ShouldShowForItem, update⟩ item = ⟨false, b.label⟩) ∧
    b.SetItem m item = ⟨false, b.label⟩ ∧
    (b.SetItem m item).label = b.label ∧
    (b.SetItem m item).shown = false ∧
    (((Sidebar.ctor CommentDialog.RemoveStartHash).SetSelectedItem
          CommentDialog.RemoveStartHash
          (some ⟨true, ["old".toList], false, [], false, []⟩)).SetSelectedItem
        CommentDialog.RemoveStartHash none).m_oldMsgid = ⟨false, "old".toList⟩ := by
  have key : ∀ update : CatalogItem → SidebarBlock → SidebarBlock,
      b.SetItem ⟨m.ShouldShowForItem, update⟩ item = ⟨false, b.label⟩ := by
    intro update
    rcases h with h | ⟨it, h, hs⟩
    · subst h
      simp [SidebarBlock.SetItem, SidebarBlock.Show]
    · subst h
      simp [SidebarBlock.SetItem, SidebarBlock.Show, hs]
  have hm : b.SetItem m item = ⟨false, b.label⟩ := key m.Update
  refine ⟨key, hm, ?_, ?_, by decide⟩
  · rw [hm]
  · rw [hm]

/-- Witness for `setItem_hidden_keeps_label`: the AutoComment block, holding the
label `kept`, is given an entry without auto-comments. -/
theorem setItem_hidden_keeps_label_witness :
    AutoCommentSidebarBlock.methods.ShouldShowForItem
        ⟨true, ["p".toList], false, ["q".toList], true, "r".toList⟩ = false ∧
    (⟨true, "kept".toList⟩ : SidebarBlock).SetItem AutoCommentSidebarBlock.methods
        (some ⟨true, ["p".toList], false, ["q".toList], true, "r".toList⟩) =
      ⟨false, "kept".toList⟩ :=
  ⟨rfl, (setItem_hidden_keeps_label AutoCommentSidebarBlock.methods
    (some ⟨true, ["p".toList], false, ["q".toList], true, "r".toList⟩) ⟨true, "kept".toList⟩
    (Or.inr ⟨_, rfl, rfl⟩)).2.1⟩

/-! ## The notes for translators -/

/-- C3: when the auto-comments joined with a single space begin with
`TRANSLATORS:` or with `translators:`, the label set by
`AutoCommentSidebarBlock::Update` is the joined text without these 12
characters and, when the next character is a space, without that one space;
everything after it, further spaces included, is kept. -/
theorem autoComment_marker_stripped (item : CatalogItem) (b : SidebarBlock) (rest : wxString)
    (h : List.intercalate [' '] item.GetAutoComments = "TRANSLATORS:".toList ++ rest ∨
      List.intercalate [' '] item.GetAutoComments = "translators:".toList ++ rest) :
    (AutoCommentSidebarBlock.Update item b).label =
      if rest.head? = some ' ' then rest.tail else rest := by
  rw [← wxJoin_eq_intercalate] at h
  rcases h with h | h
  · exact autoComment_label_of_marker item b _ rest (Or.inl rfl) h
  · exact autoComment_label_of_marker item b _ rest (Or.inr rfl) h

/-- Witness for `autoComment_marker_stripped`: the lines `translators:` and
` two` join to the marker followed by two spaces, of which one is removed. -/
theorem autoComment_marker_stripped_witness :
    List.intercalate [' '] ["translators:".toList, " two".toList] =
      "translators:".toList ++ "  two".toList ∧
    (AutoCommentSidebarBlock.Update
      ⟨false, [], true, ["translators:".toList, " two".toList], false, []⟩
      ⟨false, []⟩).label = " two".toList :=
  ⟨by decide, autoComment_marker_stripped
    ⟨false, [], true, ["translators:".toList, " two".toList], false, []⟩ ⟨false, []⟩
    "  two".toList (Or.inr (by decide))⟩

/-- C4, counterexample: the joined auto-comments `Translators: foo` begin with
the marker in mixed case, yet the label set by `Update` is the whole text, not
`foo`. -/
theorem autoComment_mixed_case_kept :
    ("Translators: foo".toList.take 12).map Char.toLower = "translators:".toList ∧
    List.intercalate [' '] ["Translators: foo".toList] = "Translators: foo".toList ∧
    (AutoCommentSidebarBlock.Update ⟨false, [], true, ["Translators: foo".toList], false, []⟩
      ⟨false, []⟩).label = "Translators: foo".toList ∧
    (AutoCommentSidebarBlock.Update ⟨false, [], true, ["Translators: foo".toList], false, []⟩
      ⟨false, []⟩).label ≠ "foo".toList := by
  decide

/-- C4, amended: the marker is recognised in two spellings only. When the joined
auto-comments begin with a 12-character text `m` that reads `translators:` once
its letters are put in lower case, the label set by `Update` has `m` and one
following space removed if `m` is `TRANSLATORS:` or `translators:`, and is the
whole joined text for every other mix of case. -/
theorem autoComment_marker_two_spellings (item : CatalogItem) (b : SidebarBlock)
    (m rest : wxString) (hj : List.intercalate [' '] item.GetAutoComments = m ++ rest)
    (hm : m.map Char.toLower = "translators:".toList) :
    (AutoCommentSidebarBlock.Update item b).label =
      if m = "TRANSLATORS:".toList ∨ m = "translators:".toList then
        (if rest.head? = some ' ' then rest.tail else rest)
      else m ++ rest := by
  rw [← wxJoin_eq_intercalate] at hj
  have hlen : m.length = 12 := by
    have := congrArg List.length hm
    simpa using this
  by_cases hc : m = "TRANSLATORS:".toList ∨ m = "translators:".toList
  · rw [if_pos hc]
    exact autoComment_label_of_marker item b m rest hc hj
  · rw [if_neg hc]
    have hU : StartsWith (wxJoin item.GetAutoComments ' ' '\x00') "TRANSLATORS:".toList
        = false := by
      rw [hj, Bool.eq_false_iff, Ne, startsWith_same_length _ _ _ (by rw [hlen]; rfl)]
      exact fun e => hc (Or.inl e.symm)
    have hL : StartsWith (wxJoin item.GetAutoComments ' ' '\x00') "translators:".toList
        = false := by
      rw [hj, Bool.eq_false_iff, Ne, startsWith_same_length _ _ _ (by rw [hlen]; rfl)]
      exact fun e => hc (Or.inr e.symm)
    rw [autoComment_label_of_no_marker item b hU hL, hj]

/-- Witness for `autoComment_marker_two_spellings`: the mixed-case marker of
`Translators: foo` stays. -/
theorem autoComment_marker_two_spellings_witness :
    List.intercalate [' '] ["Translators: foo".toList] =
      "Translators:".toList ++ " foo".toList ∧
    "Translators:".toList.map Char.toLower = "translators:".toList ∧
    (AutoCommentSidebarBlock.Update ⟨false, [], true, ["Translators: foo".toList], false, []⟩
      ⟨false, []⟩).label =
      if "Translators:".toList = "TRANSLATORS:".toList ∨
          "Translators:".toList = "translators:".toList then
        (if " foo".toList.head? = some ' ' then " foo".toList.tail else " foo".toList)
      else "Translators:".toList ++ " foo".toList :=
  ⟨by decide, by decide, autoComment_marker_two_spellings
    ⟨false, [], true, ["Translators: foo".toList], false, []⟩ ⟨false, []⟩
    "Translators:".toList " foo".toList (by decide) (by decide)⟩

/-- C5: when the auto-comments joined with a single space begin neither with
`TRANSLATORS:` nor with `translators:`, the label set by
`AutoCommentSidebarBlock::Update` is the joined text unchanged. -/
theorem autoComment_without_marker_unchanged (item : CatalogItem) (b : SidebarBlock)
    (hU : ¬ "TRANSLATORS:".toList <+: List.intercalate [' '] item.GetAutoComments)
    (hL : ¬ "translators:".toList <+: List.intercalate [' '] item.GetAutoComments) :
    (AutoCommentSidebarBlock.Update item b).label =
      List.intercalate [' '] item.GetAutoComments := by
  rw [← wxJoin_eq_intercalate] at hU hL ⊢
  rw [← startsWith_iff_isPrefix, Bool.not_eq_true] at hU hL
  exact autoComment_label_of_no_marker item b hU hL

/-- Witness for `autoComment_without_marker_unchanged`: two lines without
marker, the second starting with a space. -/
theorem autoComment_without_marker_unchanged_witness :
    (AutoCommentSidebarBlock.Update
      ⟨false, [], true, ["see translators:".toList, " note ".toList], false, []⟩
      ⟨true, "x".toList⟩).label = "see translators:  note ".toList :=
  autoComment_without_marker_unchanged
    ⟨false, [], true, ["see translators:".toList, " note ".toList], false, []⟩
    ⟨true, "x".toList⟩ (by decide) (by decide)

/-- C10: for every list of auto-comment lines the label set by
`AutoCommentSidebarBlock::Update` is the joined text without its first 0, 12 or
13 characters, hence a suffix of it. The marker is stripped once only: the lines
`TRANSLATORS:`, `translators:`, `x` are shown as `translators: x`, and an entry
whose one line is that text is shown as `x`. -/
theorem autoComment_label_is_suffix (item : CatalogItem) (b : SidebarBlock) :
    ((AutoCommentSidebarBlock.Update item b).label =
        (List.intercalate [' '] item.GetAutoComments).drop 0 ∨
      (AutoCommentSidebarBlock.Update item b).label =
        (List.intercalate [' '] item.GetAutoComments).drop 12 ∨
      (AutoCommentSidebarBlock.Update item b).label =
        (List.intercalate [' '] item.GetAutoComments).drop 13) ∧
    (AutoCommentSidebarBlock.Update item b).label <:+
      List.intercalate [' '] item.GetAutoComments ∧
    List.intercalate [' '] ["TRANSLATORS:".toList, "translators:".toList, "x".toList] =
      "TRANSLATORS: translators: x".toList ∧
    (AutoCommentSidebarBlock.Update
      ⟨false, [], true, ["TRANSLATORS:".toList, "translators:".toList, "x".toList], false, []⟩
      b).label = "translators: x".toList ∧
    (AutoCommentSidebarBlock.Update
      ⟨false, [], true, ["translators: x".toList], false, []⟩ b).label = "x".toList := by
  have hdrop : (AutoCommentSidebarBlock.Update item b).label =
        (List.intercalate [' '] item.GetAutoComments).drop 0 ∨
      (AutoCommentSidebarBlock.Update item b).label =
        (List.intercalate [' '] item.GetAutoComments).drop 12 ∨
      (AutoCommentSidebarBlock.Update item b).label =
        (List.intercalate [' '] item.GetAutoComments).drop 13 := by
    rw [← wxJoin_eq_intercalate]
    by_cases hU : StartsWith (wxJoin item.GetAutoComments ' ' '\x00') "TRANSLATORS:".toList
        = true
    · obtain ⟨rest, hrest⟩ := (startsWith_iff_isPrefix _ _).1 hU
      rw [autoComment_label_of_marker item b _ rest (Or.inl rfl) hrest.symm, ← hrest]
      cases rest with
      | nil => right; left; simp
      | cons c r =>
        by_cases hc : c = ' '
        · right; right; subst hc; simp
        · right; left; simp [hc]
    · by_cases hL : StartsWith (wxJoin item.GetAutoComments ' ' '\x00') "translators:".toList
          = true
      · obtain ⟨rest, hrest⟩ := (startsWith_iff_isPrefix _ _).1 hL
        rw [autoComment_label_of_marker item b _ rest (Or.inr rfl) hrest.symm, ← hrest]
        cases rest with
        | nil => right; left; simp
        | cons c r =>
          by_cases hc : c = ' '
          · right; right; subst hc; simp
          · right; left; simp [hc]
      · rw [Bool.not_eq_true] at hU hL
        left
        rw [autoComment_label_of_no_marker item b hU hL]
        rfl
  refine ⟨hdrop, ?_, by decide, ?_, ?_⟩
  · rcases hdrop with h | h | h <;> rw [h] <;> exact List.drop_suffix _ _
  · simp only [AutoCommentSidebarBlock.Update]
    decide
  · simp only [AutoCommentSidebarBlock.Update]
    decide

/-! ## The translator's comment -/

/-- C7, counterexample: for the comment made of a hash, two spaces, `x` and a
space, `RemoveStartHash` leaves a space on either side of `x`; the label set by
`CommentSidebarBlock::Update` still starts with a space, and is not the text
trimmed at both ends. -/
theorem comment_leading_space_kept :
    CommentDialog.RemoveStartHash "#  x ".toList = " x ".toList ∧
    (CommentSidebarBlock.Update CommentDialog.RemoveStartHash
      ⟨false, [], false, [], true, "#  x ".toList⟩ ⟨false, []⟩).label = " x".toList ∧
    ((CommentSidebarBlock.Update CommentDialog.RemoveStartHash
      ⟨false, [], false, [], true, "#  x ".toList⟩ ⟨false, []⟩).label.head?.map
        wxSafeIsspace) = some true ∧
    (CommentSidebarBlock.Update CommentDialog.RemoveStartHash
      ⟨false, [], false, [], true, "#  x ".toList⟩ ⟨false, []⟩).label ≠
      ((CommentDialog.RemoveStartHash "#  x ".toList).rdropWhile wxSafeIsspace).dropWhile
        wxSafeIsspace := by
  decide

/-- C7, amended: for every entry the label set by `CommentSidebarBlock::Update`
is the result of `RemoveStartHash` on the comment with the white space at its
right end removed, whatever `RemoveStartHash` does: the label is a prefix of
that result, what is cut off is white space only, and the label does not end in
white space (white space at its start stays). In particular, for a comment that
begins with a hash followed by a white-space character, the label is the text
after these two characters, trimmed on the right. -/
theorem comment_label_right_trimmed (RemoveStartHash : wxString → wxString)
    (item : CatalogItem) (b : SidebarBlock) :
    (CommentSidebarBlock.Update RemoveStartHash item b).label =
      (RemoveStartHash item.GetComment).rdropWhile wxSafeIsspace ∧
    (∃ cut : wxString, RemoveStartHash item.GetComment =
        (CommentSidebarBlock.Update RemoveStartHash item b).label ++ cut ∧
      ∀ ch ∈ cut, wxSafeIsspace ch = true) ∧
    (∀ ch, (CommentSidebarBlock.Update RemoveStartHash item b).label.getLast? = some ch →
      wxSafeIsspace ch = false) ∧
    (∀ ch rest, item.GetComment = '#' :: ch :: rest → wxSafeIsspace ch = true →
      (CommentSidebarBlock.Update CommentDialog.RemoveStartHash item b).label =
        rest.rdropWhile wxSafeIsspace) := by
  have hlabel : ∀ r : wxString → wxString, (CommentSidebarBlock.Update r item b).label =
      (r item.GetComment).rdropWhile wxSafeIsspace := by
    intro r
    simp [CommentSidebarBlock.Update, trim_right_eq_rdropWhile]
  refine ⟨hlabel _, ?_, ?_, ?_⟩
  · rw [hlabel]
    refine ⟨(RemoveStartHash item.GetComment).rtakeWhile wxSafeIsspace,
      (rdropWhile_append_rtakeWhile _ _).symm, ?_⟩
    intro ch hch
    exact List.mem_rtakeWhile_imp hch
  · rw [hlabel]
    intro ch hch
    have hne : (RemoveStartHash item.GetComment).rdropWhile wxSafeIsspace ≠ [] := by
      intro h
      rw [h] at hch
      simp at hch
    have hlast := List.rdropWhile_last_not wxSafeIsspace _ hne
    rw [List.getLast?_eq_getLast _ hne] at hch
    cases hch
    simpa using hlast
  · intro ch rest hc hws
    rw [hlabel, hc]
    simp [CommentDialog.RemoveStartHash, hws]

/-- Witness for `comment_label_right_trimmed`: a hash, a tab, then `note` between
two spaces and a final newline. -/
theorem comment_label_right_trimmed_witness :
    wxSafeIsspace '\t' = true ∧
    (CommentSidebarBlock.Update CommentDialog.RemoveStartHash
      ⟨false, [], false, [], true, "#\t note \n".toList⟩ ⟨false, []⟩).label =
      " note \n".toList.rdropWhile wxSafeIsspace ∧
    " note \n".toList.rdropWhile wxSafeIsspace = " note".toList :=
  ⟨by decide, (comment_label_right_trimmed CommentDialog.RemoveStartHash
    ⟨false, [], false, [], true, "#\t note \n".toList⟩ ⟨false, []⟩).2.2.2 '\t'
    " note \n".toList rfl (by decide), by decide⟩

/-! ## Sign-out of the Crowdin client -/

/-- C8: after `CrowdinClient::SignOut`, from any client state and with any
remote service, `IsSignedIn` is false and a following `GetUserInfo` does not
invoke its callback; this is so also when the state before the sign-out is the
one left by a sign-in and an earlier `GetUserInfo`. -/
theorem signOut_then_getUserInfo_fails (service : String → Option CrowdinClient.UserInfo)
    (c : CrowdinClient) :
    c.SignOut.IsSignedIn = false ∧
    (c.SignOut.GetUserInfo service).2 = none ∧
    (∀ token : String,
      ((((c.HandleOAuthCallback token).GetUserInfo service).1.SignOut).GetUserInfo
        service).2 = none) := by
  refine ⟨rfl, rfl, ?_⟩
  intro token
  rfl

end Poedit
